import Mathlib

set_option maxHeartbeats 1000000

/-! Shallow embedding of the Intcode virtual machine of `src/intcode.rs`.
Machine words (Rust `isize`) are modelled as `Int`, addresses (`usize`) as
`Nat`, memory as `List Int`.  Each fallible mutating Rust method
`fn f(&mut self, ..) -> Result<T, E>` becomes a Lean function
`Machine → .. → Except E T × Machine` returning the machine in its
(possibly partially) mutated state on the error path as well, exactly as
the Rust `?` operator leaves `self` behind. -/

inductive OperationalError where
  | InvalidOpcode (v : Int)
  | InvalidParameterMode (v : Int)
  | OutOfRange (a : Nat)
  | NegativeAddress (v : Int)
  | NegativeInstruction (v : Int)
  | TooManyParameterModes (v : Int)
  | ImmediateModeStorage
  | InvalidModeDigits (v : Int)
deriving DecidableEq

inductive ParseError where
  | NotAnInteger (s : String)
deriving DecidableEq

/-- The `IntoAddress` impl for `Value` (`isize → usize` with a sign check).
The impl for `Address` (`usize`) is the identity and needs no embedding. -/
def into_addr (v : Int) : Except OperationalError Nat :=
  if v < 0 then .error (.NegativeAddress v) else .ok v.toNat

inductive Opcode where
  | Add
  | Multiply
  | Input
  | Output
  | JumpIfTrue
  | JumpIfFalse
  | LessThan
  | Equals
  | RelativeBaseOffset
  | Halt
deriving DecidableEq

def Opcode.from_int (i : Int) : Except OperationalError Opcode :=
  if i = 1 then .ok .Add
  else if i = 2 then .ok .Multiply
  else if i = 3 then .ok .Input
  else if i = 4 then .ok .Output
  else if i = 5 then .ok .JumpIfTrue
  else if i = 6 then .ok .JumpIfFalse
  else if i = 7 then .ok .LessThan
  else if i = 8 then .ok .Equals
  else if i = 9 then .ok .RelativeBaseOffset
  else if i = 99 then .ok .Halt
  else .error (.InvalidOpcode i)

def Opcode.parameter_count : Opcode → Nat
  | .Add => 3
  | .Multiply => 3
  | .Input => 1
  | .Output => 1
  | .JumpIfTrue => 2
  | .JumpIfFalse => 2
  | .LessThan => 3
  | .Equals => 3
  | .RelativeBaseOffset => 1
  | .Halt => 0

inductive ParameterMode where
  | Positional
  | Immediate
  | Relative
deriving DecidableEq

def ParameterMode.from_int (value : Option Int) : Except OperationalError ParameterMode :=
  match value with
  | some val =>
      if val = 0 then .ok .Positional
      else if val = 1 then .ok .Immediate
      else if val = 2 then .ok .Relative
      else .error (.InvalidParameterMode val)
  | none => .ok .Positional

structure Parameter where
  value : Int
  mode : ParameterMode
deriving DecidableEq

/-- The inlined lookup table of `mode_int_to_vec`. -/
def mode_int_to_vec (mode : Int) : Except OperationalError (List Int) :=
  if mode = 0 then .ok []
  else if mode = 1 then .ok [1]
  else if mode = 2 then .ok [2]
  else if mode = 10 then .ok [1, 0]
  else if mode = 11 then .ok [1, 1]
  else if mode = 12 then .ok [1, 2]
  else if mode = 20 then .ok [2, 0]
  else if mode = 21 then .ok [2, 1]
  else if mode = 22 then .ok [2, 2]
  else if mode = 100 then .ok [1, 0, 0]
  else if mode = 101 then .ok [1, 0, 1]
  else if mode = 102 then .ok [1, 0, 2]
  else if mode = 110 then .ok [1, 1, 0]
  else if mode = 111 then .ok [1, 1, 1]
  else if mode = 112 then .ok [1, 1, 2]
  else if mode = 120 then .ok [1, 2, 0]
  else if mode = 121 then .ok [1, 2, 1]
  else if mode = 122 then .ok [1, 2, 2]
  else if mode = 200 then .ok [2, 0, 0]
  else if mode = 201 then .ok [2, 0, 1]
  else if mode = 202 then .ok [2, 0, 2]
  else if mode = 210 then .ok [2, 1, 0]
  else if mode = 211 then .ok [2, 1, 1]
  else if mode = 212 then .ok [2, 1, 2]
  else if mode = 220 then .ok [2, 2, 0]
  else if mode = 221 then .ok [2, 2, 1]
  else if mode = 222 then .ok [2, 2, 2]
  else .error (.InvalidModeDigits mode)

structure Instruction where
  opcode : Opcode
  parameters : List Parameter
deriving DecidableEq

def Instruction.op_and_mode_digits (value : Int) : Except OperationalError (Opcode × List Int) :=
  if value < 0 then .error (.NegativeInstruction value)
  else
    match Opcode.from_int (value % 100) with
    | .error e => .error e
    | .ok opcode =>
      match mode_int_to_vec (value / 100) with
      | .error e => .error e
      | .ok mode_digits => .ok (opcode, mode_digits.reverse)

inductive MachineState where
  | Running
  | Halted
  | Blocked
deriving DecidableEq

structure Machine where
  slots : List Int
  pointer : Nat
  state : MachineState
  relative_base : Int
  input_pointer : Nat
  input : List Int
  output_pointer : Nat
  output : List Int
  instruction_counter : Nat
deriving DecidableEq

def Machine.from_slots (slots : List Int) : Machine :=
  { slots := slots
    pointer := 0
    state := .Running
    relative_base := 0
    input_pointer := 0
    input := []
    output_pointer := 0
    output := []
    instruction_counter := 0 }

/-- Embeds `str::split(',')` of the program text, over the character list. -/
def split_on_commas : List Char → List (List Char)
  | [] => [[]]
  | c :: cs =>
    if c = ',' then [] :: split_on_commas cs
    else
      match split_on_commas cs with
      | [] => [[c]]
      | t :: ts => (c :: t) :: ts

/-- Embeds `str::trim`: strip leading and trailing whitespace. -/
def trim_chars (cs : List Char) : List Char :=
  ((cs.dropWhile Char.isWhitespace).reverse.dropWhile Char.isWhitespace).reverse

/-- Digit run of `isize::from_str_radix(_, 10)`: at least one char, all
decimal digits, accumulated base 10. -/
def parse_digits (ds : List Char) : Option Int :=
  if ds.isEmpty then none
  else if ds.all Char.isDigit then
    some (ds.foldl (fun a c => a * 10 + ((c.toNat : Int) - 48)) 0)
  else none

/-- Embeds `isize::from_str_radix(token, 10)`: optional sign, then digits. -/
def parse_int (cs : List Char) : Option Int :=
  match cs with
  | '+' :: ds => parse_digits ds
  | '-' :: ds => (parse_digits ds).map Neg.neg
  | ds => parse_digits ds

/-- The token loop of `Machine::from_str`: trim each token, parse it,
fail with `NotAnInteger` on the first bad token. -/
def parse_tokens : List (List Char) → Except ParseError (List Int)
  | [] => .ok []
  | t :: ts =>
    match parse_int (trim_chars t) with
    | none => .error (.NotAnInteger (String.mk t))
    | some v =>
      match parse_tokens ts with
      | .error e => .error e
      | .ok vs => .ok (v :: vs)

def Machine.from_str (input : String) : Except ParseError Machine :=
  match parse_tokens (split_on_commas input.data) with
  | .error e => .error e
  | .ok slots => .ok (Machine.from_slots slots)

def Machine.grow_memory_for (m : Machine) (index : Nat) : Machine :=
  if m.slots.length ≤ index then
    { m with slots := m.slots ++ List.replicate (index + 1 - m.slots.length) 0 }
  else m

/-- Embeds `Machine::get` at a `usize` index (the infallible `IntoAddress` impl). -/
def Machine.get (m : Machine) (addr : Nat) : Except OperationalError Int × Machine :=
  let m' := m.grow_memory_for addr
  match m'.slots[addr]? with
  | some v => (.ok v, m')
  | none => (.error (.OutOfRange addr), m')

/-- Embeds `Machine::get` at a `Value` (`isize`) index. -/
def Machine.getI (m : Machine) (index : Int) : Except OperationalError Int × Machine :=
  match into_addr index with
  | .error e => (.error e, m)
  | .ok addr => m.get addr

/-- Embeds `Machine::set` at a `usize` index. -/
def Machine.set (m : Machine) (addr : Nat) (new_value : Int) : Except OperationalError Unit × Machine :=
  let m' := m.grow_memory_for addr
  if addr < m'.slots.length then (.ok (), { m' with slots := m'.slots.set addr new_value })
  else (.error (.OutOfRange addr), m')

/-- Embeds `Machine::set` at a `Value` (`isize`) index. -/
def Machine.setI (m : Machine) (index : Int) (v : Int) : Except OperationalError Unit × Machine :=
  match into_addr index with
  | .error e => (.error e, m)
  | .ok addr => m.set addr v

def Machine.get_parameter_val (m : Machine) (p : Parameter) : Except OperationalError Int × Machine :=
  match p.mode with
  | .Positional => m.getI p.value
  | .Immediate => (.ok p.value, m)
  | .Relative => m.getI (m.relative_base + p.value)

def Machine.set_at_parameter (m : Machine) (p : Parameter) (value : Int) : Except OperationalError Unit × Machine :=
  match p.mode with
  | .Positional => m.setI p.value value
  | .Relative => m.setI (p.value + m.relative_base) value
  | .Immediate => (.error .ImmediateModeStorage, m)

/-- The parameter-fetch loop of `read_instruction`: indices `i`,
`i+1`, …, `i+k-1` of the mode-digit list, words at `pointer + index + 1`. -/
def read_params (mode_digits : List Int) : Nat → Nat → Machine → Except OperationalError (List Parameter) × Machine
  | _, 0, m => (.ok [], m)
  | i, k + 1, m =>
    match ParameterMode.from_int mode_digits[i]? with
    | .error e => (.error e, m)
    | .ok mode =>
      match m.get (m.pointer + i + 1) with
      | (.error e, m') => (.error e, m')
      | (.ok v, m') =>
        match read_params mode_digits (i + 1) k m' with
        | (.error e, m'') => (.error e, m'')
        | (.ok ps, m'') => (.ok (⟨v, mode⟩ :: ps), m'')

def Machine.read_instruction (m : Machine) : Except OperationalError Instruction × Machine :=
  match m.get m.pointer with
  | (.error e, m') => (.error e, m')
  | (.ok instruction_val, m') =>
    match Instruction.op_and_mode_digits instruction_val with
    | .error e => (.error e, m')
    | .ok (opcode, mode_digits) =>
      if mode_digits.length > opcode.parameter_count then
        (.error (.TooManyParameterModes instruction_val), m')
      else
        match read_params mode_digits 0 opcode.parameter_count m' with
        | (.error e, m'') => (.error e, m'')
        | (.ok parameters, m'') => (.ok ⟨opcode, parameters⟩, m'')

/-- Rust indexes `instruction.parameters[i]` directly; `read_instruction`
always builds exactly `parameter_count` parameters, so the default is
never reached from `run`. -/
def default_param : Parameter := ⟨0, .Positional⟩

/-- Shared shape of the Add / Multiply / LessThan / Equals arms. -/
def Machine.exec_binary (m : Machine) (ps : List Parameter) (f : Int → Int → Int) : Except OperationalError Unit × Machine :=
  match m.get_parameter_val (ps.getD 0 default_param) with
  | (.error e, m1) => (.error e, m1)
  | (.ok left, m1) =>
    match m1.get_parameter_val (ps.getD 1 default_param) with
    | (.error e, m2) => (.error e, m2)
    | (.ok right, m2) => m2.set_at_parameter (ps.getD 2 default_param) (f left right)

/-- Shared shape of the JumpIfTrue / JumpIfFalse arms; the `Bool` is the
`advance_pointer` flag. -/
def Machine.exec_jump (m : Machine) (ps : List Parameter) (cond : Int → Bool) : (Except OperationalError Unit × Machine) × Bool :=
  match m.get_parameter_val (ps.getD 0 default_param) with
  | (.error e, m1) => ((.error e, m1), true)
  | (.ok v, m1) =>
    if cond v then
      match m1.get_parameter_val (ps.getD 1 default_param) with
      | (.error e, m2) => ((.error e, m2), true)
      | (.ok t, m2) =>
        match into_addr t with
        | .error e => ((.error e, m2), true)
        | .ok a => ((.ok (), { m2 with pointer := a }), false)
    else ((.ok (), m1), true)

/-- The opcode dispatch of `execute_instruction`; the `Bool` is the
`advance_pointer` flag. -/
def Machine.execute_core (m : Machine) (instruction : Instruction) : (Except OperationalError Unit × Machine) × Bool :=
  let ps := instruction.parameters
  match instruction.opcode with
  | .Halt => ((.ok (), { m with state := .Halted }), true)
  | .Add => (m.exec_binary ps (fun l r => l + r), true)
  | .Multiply => (m.exec_binary ps (fun l r => l * r), true)
  | .Input =>
    match m.input[m.input_pointer]? with
    | none => ((.ok (), { m with state := .Blocked }), false)
    | some val =>
      match m.set_at_parameter (ps.getD 0 default_param) val with
      | (.error e, m1) => ((.error e, m1), true)
      | (.ok _, m1) => ((.ok (), { m1 with input_pointer := m1.input_pointer + 1 }), true)
  | .Output =>
    match m.get_parameter_val (ps.getD 0 default_param) with
    | (.error e, m1) => ((.error e, m1), true)
    | (.ok val, m1) => ((.ok (), { m1 with output := m1.output ++ [val] }), true)
  | .JumpIfTrue => m.exec_jump ps (fun v => v != 0)
  | .JumpIfFalse => m.exec_jump ps (fun v => v == 0)
  | .LessThan => (m.exec_binary ps (fun l r => if l < r then 1 else 0), true)
  | .Equals => (m.exec_binary ps (fun l r => if l = r then 1 else 0), true)
  | .RelativeBaseOffset =>
    match m.get_parameter_val (ps.getD 0 default_param) with
    | (.error e, m1) => ((.error e, m1), true)
    | (.ok value, m1) => ((.ok (), { m1 with relative_base := m1.relative_base + value }), true)

def Machine.execute_instruction (m : Machine) (instruction : Instruction) : Except OperationalError Unit × Machine :=
  if m.state ≠ .Running then (.ok (), m)
  else
    match m.execute_core instruction with
    | ((.error e, m'), _) => (.error e, m')
    | ((.ok _, m'), advance_pointer) =>
      let m'' :=
        if advance_pointer then
          { m' with pointer := m'.pointer + instruction.opcode.parameter_count + 1 }
        else m'
      (.ok (), { m'' with instruction_counter := m''.instruction_counter + 1 })

/-- One iteration of the loop body of `Machine::run`: decode the word at
the pointer, then execute it. -/
def Machine.step (m : Machine) : Except OperationalError Unit × Machine :=
  match m.read_instruction with
  | (.error e, m') => (.error e, m')
  | (.ok instruction, m') => m'.execute_instruction instruction

/-- Embeds `Machine::run`, with explicit fuel bounding the number of loop
iterations; `none` means the loop did not return within `fuel`
iterations, `some` is the value `run` actually returns. -/
def Machine.run (fuel : Nat) (m : Machine) : Option (Except OperationalError Unit × Machine) :=
  match fuel with
  | 0 => none
  | fuel + 1 =>
    match m.step with
    | (.error e, m') => some (.error e, m')
    | (.ok _, m') =>
      match m'.state with
      | .Halted => some (.ok (), m')
      | .Blocked => some (.ok (), m')
      | .Running => Machine.run fuel m'

/-- Embeds `Machine::write` (the spec's `push`). -/
def Machine.write (m : Machine) (input : Int) : Machine :=
  let m' := { m with input := m.input ++ [input] }
  if m'.state = .Blocked then { m' with state := .Running } else m'

/-- Embeds `Machine::read` (the spec's `drain`). -/
def Machine.read (m : Machine) : List Int × Machine :=
  if m.output_pointer ≥ m.output.length then ([], m)
  else (m.output.drop m.output_pointer, { m with output_pointer := m.output.length })

def Machine.peek (m : Machine) : Nat :=
  if m.output_pointer ≥ m.output.length then 0
  else m.output.length - m.output_pointer

/-- The spec's `duplicate()`: `Machine` derives `Clone`, whose derived
implementation clones every field. -/
def Machine.duplicate (m : Machine) : Machine :=
  { slots := m.slots
    pointer := m.pointer
    state := m.state
    relative_base := m.relative_base
    input_pointer := m.input_pointer
    input := m.input
    output_pointer := m.output_pointer
    output := m.output
    instruction_counter := m.instruction_counter }

/-- Observable memory: the value stored at an address, `0` beyond the
current buffer (reading there would zero-grow the buffer first). -/
def Machine.memVal (m : Machine) (a : Nat) : Int := m.slots.getD a 0

/-- Relation: `m'` differs from `m` at most by zero-filled growth of the memory
buffer: every other field is unchanged and every address holds the same
observable value. -/
def GrowsOnly (m m' : Machine) : Prop :=
  m'.pointer = m.pointer ∧ m'.state = m.state ∧ m'.relative_base = m.relative_base ∧
  m'.input_pointer = m.input_pointer ∧ m'.input = m.input ∧
  m'.output_pointer = m.output_pointer ∧ m'.output = m.output ∧
  m'.instruction_counter = m.instruction_counter ∧
  m.slots.length ≤ m'.slots.length ∧ ∀ a, m'.memVal a = m.memVal a

deriving instance DecidableEq for Except

/-- The address that `set_at_parameter` resolves a write parameter to,
read off from its three match arms. -/
def writeAddr (p : Parameter) (base : Int) : Except OperationalError Nat :=
  match p.mode with
  | .Positional => into_addr p.value
  | .Relative => into_addr (p.value + base)
  | .Immediate => .error .ImmediateModeStorage

/-- Pure form of the parameter-fetch loop: the value `read_params`
computes, as a function of the pointer and the observable memory only. -/
def params_pure (mode_digits : List Int) (ptr : Nat) (mem : Nat → Int) : Nat → Nat → Except OperationalError (List Parameter)
  | _, 0 => .ok []
  | i, k + 1 =>
    match ParameterMode.from_int mode_digits[i]? with
    | .error e => .error e
    | .ok mode =>
      match params_pure mode_digits ptr mem (i + 1) k with
      | .error e => .error e
      | .ok ps => .ok (⟨mem (ptr + i + 1), mode⟩ :: ps)

/-- Pure form of the decoder: the value `read_instruction` computes, as a
function of the pointer and the observable memory only. -/
def decode_pure (ptr : Nat) (mem : Nat → Int) : Except OperationalError Instruction :=
  match Instruction.op_and_mode_digits (mem ptr) with
  | .error e => .error e
  | .ok (opcode, mode_digits) =>
    if mode_digits.length > opcode.parameter_count then
      .error (.TooManyParameterModes (mem ptr))
    else
      match params_pure mode_digits ptr mem 0 opcode.parameter_count with
      | .error e => .error e
      | .ok parameters => .ok ⟨opcode, parameters⟩

/-- Relation: `RunReaches m m'` holds when the loop of `run`, started at `m`, passes
through `m'` after some number of successfully completed instructions
(continuing only while the state stays `Running`, as the loop does). -/
inductive RunReaches : Machine → Machine → Prop
  | refl (m : Machine) : RunReaches m m
  | step (m m₁ m₂ : Machine) : m.step = (.ok (), m₁) → m₁.state = .Running →
      RunReaches m₁ m₂ → RunReaches m m₂

/-- The machine `from_slots [99]` after its first `run`: the `Halt` at
address 0 has executed, the pointer has advanced past it. -/
def halted99 : Machine :=
  { slots := [99]
    pointer := 1
    state := .Halted
    relative_base := 0
    input_pointer := 0
    input := []
    output_pointer := 0
    output := []
    instruction_counter := 1 }

/-- Zero-filled growth does not change any observed value. -/
theorem getD_append_replicate_zero (s : List Int) (k a : Nat) :
    (s ++ List.replicate k (0 : Int)).getD a 0 = s.getD a 0 := by
  rw [List.getD_eq_getElem?_getD, List.getD_eq_getElem?_getD]
  by_cases h : a < s.length
  · rw [List.getElem?_append_left h]
  · rw [List.getElem?_append_right (Nat.le_of_not_lt h), List.getElem?_replicate]
    rw [List.getElem?_eq_none (Nat.le_of_not_lt h)]
    by_cases hk : a - s.length < k <;> simp [hk]

theorem grow_pointer (m : Machine) (i : Nat) : (m.grow_memory_for i).pointer = m.pointer := by
  unfold Machine.grow_memory_for; split <;> rfl

theorem grow_state (m : Machine) (i : Nat) : (m.grow_memory_for i).state = m.state := by
  unfold Machine.grow_memory_for; split <;> rfl

theorem grow_relative_base (m : Machine) (i : Nat) : (m.grow_memory_for i).relative_base = m.relative_base := by
  unfold Machine.grow_memory_for; split <;> rfl

theorem grow_input_pointer (m : Machine) (i : Nat) : (m.grow_memory_for i).input_pointer = m.input_pointer := by
  unfold Machine.grow_memory_for; split <;> rfl

theorem grow_input (m : Machine) (i : Nat) : (m.grow_memory_for i).input = m.input := by
  unfold Machine.grow_memory_for; split <;> rfl

theorem grow_output_pointer (m : Machine) (i : Nat) : (m.grow_memory_for i).output_pointer = m.output_pointer := by
  unfold Machine.grow_memory_for; split <;> rfl

theorem grow_output (m : Machine) (i : Nat) : (m.grow_memory_for i).output = m.output := by
  unfold Machine.grow_memory_for; split <;> rfl

theorem grow_counter (m : Machine) (i : Nat) : (m.grow_memory_for i).instruction_counter = m.instruction_counter := by
  unfold Machine.grow_memory_for; split <;> rfl

theorem grow_memVal (m : Machine) (i a : Nat) : (m.grow_memory_for i).memVal a = m.memVal a := by
  unfold Machine.grow_memory_for Machine.memVal
  split
  · exact getD_append_replicate_zero m.slots _ a
  · rfl

theorem grow_length_le (m : Machine) (i : Nat) : m.slots.length ≤ (m.grow_memory_for i).slots.length := by
  unfold Machine.grow_memory_for; split <;> simp

theorem grow_lt_length (m : Machine) (i : Nat) : i < (m.grow_memory_for i).slots.length := by
  unfold Machine.grow_memory_for
  split
  · simp only [List.length_append, List.length_replicate]; omega
  · omega

theorem grow_length_eq (m : Machine) (i : Nat) (h : m.slots.length ≤ i) :
    (m.grow_memory_for i).slots.length = i + 1 := by
  unfold Machine.grow_memory_for
  rw [if_pos h]
  simp only [List.length_append, List.length_replicate]; omega

theorem growsOnly_refl (m : Machine) : GrowsOnly m m := by
  refine ⟨rfl, rfl, rfl, rfl, rfl, rfl, rfl, rfl, le_refl _, fun a => rfl⟩

theorem growsOnly_trans {m m₁ m₂ : Machine} (h₁ : GrowsOnly m m₁) (h₂ : GrowsOnly m₁ m₂) :
    GrowsOnly m m₂ := by
  obtain ⟨p1, s1, r1, ip1, i1, op1, o1, c1, l1, v1⟩ := h₁
  obtain ⟨p2, s2, r2, ip2, i2, op2, o2, c2, l2, v2⟩ := h₂
  exact ⟨p2.trans p1, s2.trans s1, r2.trans r1, ip2.trans ip1, i2.trans i1,
    op2.trans op1, o2.trans o1, c2.trans c1, l1.trans l2, fun a => (v2 a).trans (v1 a)⟩

theorem growsOnly_grow (m : Machine) (i : Nat) : GrowsOnly m (m.grow_memory_for i) :=
  ⟨grow_pointer m i, grow_state m i, grow_relative_base m i, grow_input_pointer m i,
   grow_input m i, grow_output_pointer m i, grow_output m i, grow_counter m i,
   grow_length_le m i, fun a => grow_memVal m i a⟩

/-- Lemma: `get` at a `usize` address never fails: it returns the observable
value and only grows the buffer. -/
theorem get_eq (m : Machine) (a : Nat) :
    m.get a = (.ok (m.memVal a), m.grow_memory_for a) := by
  have h := grow_lt_length m a
  show (match (m.grow_memory_for a).slots[a]? with
    | some v => ((Except.ok v : Except OperationalError Int), m.grow_memory_for a)
    | none => (Except.error (OperationalError.OutOfRange a), m.grow_memory_for a)) =
    (.ok (m.memVal a), m.grow_memory_for a)
  rw [List.getElem?_eq_getElem h]
  have : (m.grow_memory_for a).slots[a] = (m.grow_memory_for a).memVal a := by
    unfold Machine.memVal
    rw [List.getD_eq_getElem?_getD, List.getElem?_eq_getElem h, Option.getD_some]
  rw [this, grow_memVal]

theorem growsOnly_get (m : Machine) (a : Nat) : GrowsOnly m (m.get a).2 := by
  rw [get_eq]; exact growsOnly_grow m a

/-- Lemma: `set` at a `usize` address never fails. -/
theorem set_eq (m : Machine) (a : Nat) (v : Int) :
    m.set a v = (.ok (), { m.grow_memory_for a with slots := (m.grow_memory_for a).slots.set a v }) := by
  show (if a < (m.grow_memory_for a).slots.length then
      ((Except.ok () : Except OperationalError Unit), { m.grow_memory_for a with slots := (m.grow_memory_for a).slots.set a v })
    else (Except.error (OperationalError.OutOfRange a), m.grow_memory_for a)) =
    (.ok (), { m.grow_memory_for a with slots := (m.grow_memory_for a).slots.set a v })
  rw [if_pos (grow_lt_length m a)]

theorem set_memVal_same (m : Machine) (a : Nat) (v : Int) : (m.set a v).2.memVal a = v := by
  rw [set_eq]
  unfold Machine.memVal
  simp only
  rw [List.getD_eq_getElem?_getD, List.getElem?_set_eq_of_lt v (grow_lt_length m a), Option.getD_some]

theorem set_memVal_other (m : Machine) (a : Nat) (v : Int) (b : Nat) (hb : b ≠ a) :
    (m.set a v).2.memVal b = m.memVal b := by
  rw [set_eq]
  unfold Machine.memVal
  simp only
  rw [List.getD_eq_getElem?_getD, List.getElem?_set_ne (fun h => hb h.symm)]
  rw [← List.getD_eq_getElem?_getD]
  exact grow_memVal m a b

theorem set_length (m : Machine) (a : Nat) (v : Int) :
    (m.set a v).2.slots.length = (m.grow_memory_for a).slots.length := by
  rw [set_eq]; simp

theorem set_length_le (m : Machine) (a : Nat) (v : Int) :
    m.slots.length ≤ (m.set a v).2.slots.length := by
  rw [set_length]; exact grow_length_le m a

theorem set_fields (m : Machine) (a : Nat) (v : Int) :
    (m.set a v).2.pointer = m.pointer ∧ (m.set a v).2.state = m.state ∧
    (m.set a v).2.relative_base = m.relative_base ∧
    (m.set a v).2.input_pointer = m.input_pointer ∧ (m.set a v).2.input = m.input ∧
    (m.set a v).2.output_pointer = m.output_pointer ∧ (m.set a v).2.output = m.output ∧
    (m.set a v).2.instruction_counter = m.instruction_counter := by
  rw [set_eq]
  exact ⟨grow_pointer m a, grow_state m a, grow_relative_base m a, grow_input_pointer m a,
    grow_input m a, grow_output_pointer m a, grow_output m a, grow_counter m a⟩

theorem GrowsOnly.pointer_eq {m m' : Machine} (h : GrowsOnly m m') : m'.pointer = m.pointer := h.1

theorem GrowsOnly.state_eq {m m' : Machine} (h : GrowsOnly m m') : m'.state = m.state := h.2.1

theorem GrowsOnly.rel_eq {m m' : Machine} (h : GrowsOnly m m') : m'.relative_base = m.relative_base := h.2.2.1

theorem GrowsOnly.inp_eq {m m' : Machine} (h : GrowsOnly m m') : m'.input_pointer = m.input_pointer := h.2.2.2.1

theorem GrowsOnly.input_eq {m m' : Machine} (h : GrowsOnly m m') : m'.input = m.input := h.2.2.2.2.1

theorem GrowsOnly.outp_eq {m m' : Machine} (h : GrowsOnly m m') : m'.output_pointer = m.output_pointer := h.2.2.2.2.2.1

theorem GrowsOnly.output_eq {m m' : Machine} (h : GrowsOnly m m') : m'.output = m.output := h.2.2.2.2.2.2.1

theorem GrowsOnly.counter_eq {m m' : Machine} (h : GrowsOnly m m') : m'.instruction_counter = m.instruction_counter := h.2.2.2.2.2.2.2.1

theorem GrowsOnly.len_le {m m' : Machine} (h : GrowsOnly m m') : m.slots.length ≤ m'.slots.length := h.2.2.2.2.2.2.2.2.1

theorem GrowsOnly.memVal_eq {m m' : Machine} (h : GrowsOnly m m') : ∀ a, m'.memVal a = m.memVal a := h.2.2.2.2.2.2.2.2.2

theorem getI_neg (m : Machine) (i : Int) (h : i < 0) :
    m.getI i = (.error (.NegativeAddress i), m) := by
  unfold Machine.getI into_addr
  rw [if_pos h]

theorem getI_nonneg (m : Machine) (i : Int) (h : 0 ≤ i) :
    m.getI i = (.ok (m.memVal i.toNat), m.grow_memory_for i.toNat) := by
  unfold Machine.getI into_addr
  rw [if_neg (not_lt.mpr h)]
  exact get_eq m i.toNat

theorem growsOnly_getI (m : Machine) (i : Int) : GrowsOnly m (m.getI i).2 := by
  by_cases h : i < 0
  · rw [getI_neg m i h]; exact growsOnly_refl m
  · rw [getI_nonneg m i (not_lt.mp h)]; exact growsOnly_grow m i.toNat

theorem setI_neg (m : Machine) (i : Int) (v : Int) (h : i < 0) :
    m.setI i v = (.error (.NegativeAddress i), m) := by
  unfold Machine.setI into_addr
  rw [if_pos h]

theorem setI_nonneg (m : Machine) (i : Int) (v : Int) (h : 0 ≤ i) :
    m.setI i v = m.set i.toNat v := by
  unfold Machine.setI into_addr
  rw [if_neg (not_lt.mpr h)]

theorem growsOnly_gpv (m : Machine) (p : Parameter) : GrowsOnly m (m.get_parameter_val p).2 := by
  unfold Machine.get_parameter_val
  cases p.mode
  · exact growsOnly_getI m p.value
  · exact growsOnly_refl m
  · exact growsOnly_getI m (m.relative_base + p.value)

theorem gpv_length_le (m : Machine) (p : Parameter) :
    m.slots.length ≤ (m.get_parameter_val p).2.slots.length :=
  (growsOnly_gpv m p).len_le

theorem setp_eq_of_writeAddr (m : Machine) (p : Parameter) (v : Int) (a : Nat)
    (h : writeAddr p m.relative_base = .ok a) : m.set_at_parameter p v = m.set a v := by
  unfold Machine.set_at_parameter
  unfold writeAddr at h
  cases hm : p.mode <;> rw [hm] at h
  · unfold into_addr at h
    by_cases hv : p.value < 0
    · rw [if_pos hv] at h; exact absurd h (by simp)
    · rw [if_neg hv] at h
      rw [setI_nonneg m p.value v (not_lt.mp hv)]
      cases h; rfl
  · exact absurd h (by simp)
  · unfold into_addr at h
    by_cases hv : p.value + m.relative_base < 0
    · rw [if_pos hv] at h; exact absurd h (by simp)
    · rw [if_neg hv] at h
      rw [setI_nonneg m (p.value + m.relative_base) v (not_lt.mp hv)]
      cases h; rfl

theorem setp_error_growsOnly (m : Machine) (p : Parameter) (v : Int) (e : OperationalError)
    (m' : Machine) (h : m.set_at_parameter p v = (.error e, m')) : GrowsOnly m m' := by
  unfold Machine.set_at_parameter at h
  cases hm : p.mode <;> rw [hm] at h
  · by_cases hv : p.value < 0
    · rw [setI_neg m p.value v hv] at h
      cases h; exact growsOnly_refl m
    · rw [setI_nonneg m p.value v (not_lt.mp hv), set_eq] at h
      exact absurd h (by simp)
  · cases h; exact growsOnly_refl m
  · by_cases hv : p.value + m.relative_base < 0
    · rw [setI_neg _ _ _ hv] at h
      cases h; exact growsOnly_refl m
    · rw [setI_nonneg _ _ _ (not_lt.mp hv), set_eq] at h
      exact absurd h (by simp)

theorem setp_length_le (m : Machine) (p : Parameter) (v : Int) :
    m.slots.length ≤ (m.set_at_parameter p v).2.slots.length := by
  unfold Machine.set_at_parameter
  cases p.mode
  · by_cases hv : p.value < 0
    · rw [setI_neg m p.value v hv]
    · rw [setI_nonneg m p.value v (not_lt.mp hv)]
      exact set_length_le m _ v
  · exact le_refl _
  · by_cases hv : p.value + m.relative_base < 0
    · rw [setI_neg _ _ _ hv]
    · rw [setI_nonneg _ _ _ (not_lt.mp hv)]
      exact set_length_le m _ v

theorem read_params_spec (md : List Int) : ∀ (k i : Nat) (m : Machine),
    GrowsOnly m (read_params md i k m).2 ∧
    (read_params md i k m).1 = params_pure md m.pointer m.memVal i k := by
  intro k
  induction k with
  | zero => exact fun i m => ⟨growsOnly_refl m, rfl⟩
  | succ k ih =>
    intro i m
    unfold read_params params_pure
    cases hmode : ParameterMode.from_int md[i]? with
    | error e => exact ⟨growsOnly_refl m, rfl⟩
    | ok mode =>
      rw [get_eq m (m.pointer + i + 1)]
      dsimp only
      have hg : GrowsOnly m (m.grow_memory_for (m.pointer + i + 1)) :=
        growsOnly_grow m (m.pointer + i + 1)
      have hmem : (m.grow_memory_for (m.pointer + i + 1)).memVal = m.memVal :=
        funext fun a => grow_memVal m (m.pointer + i + 1) a
      have ih' := ih (i + 1) (m.grow_memory_for (m.pointer + i + 1))
      rcases hrec : read_params md (i + 1) k (m.grow_memory_for (m.pointer + i + 1)) with ⟨r, m''⟩
      rw [hrec] at ih'
      dsimp only at ih'
      rw [hg.pointer_eq, hmem] at ih'
      rw [← ih'.2]
      cases r with
      | error e => exact ⟨growsOnly_trans hg ih'.1, rfl⟩
      | ok ps => exact ⟨growsOnly_trans hg ih'.1, rfl⟩

theorem read_instruction_spec (m : Machine) :
    GrowsOnly m m.read_instruction.2 ∧
    m.read_instruction.1 = decode_pure m.pointer m.memVal := by
  unfold Machine.read_instruction decode_pure
  rw [get_eq m m.pointer]
  dsimp only
  have hg : GrowsOnly m (m.grow_memory_for m.pointer) := growsOnly_grow m m.pointer
  have hmem : (m.grow_memory_for m.pointer).memVal = m.memVal :=
    funext fun a => grow_memVal m m.pointer a
  cases hop : Instruction.op_and_mode_digits (m.memVal m.pointer) with
  | error e => exact ⟨hg, rfl⟩
  | ok od =>
    rcases od with ⟨opcode, mode_digits⟩
    dsimp only
    by_cases harity : mode_digits.length > opcode.parameter_count
    · rw [if_pos harity, if_pos harity]
      exact ⟨hg, rfl⟩
    · rw [if_neg harity, if_neg harity]
      have hp := read_params_spec mode_digits opcode.parameter_count 0 (m.grow_memory_for m.pointer)
      rcases hrec : read_params mode_digits 0 opcode.parameter_count (m.grow_memory_for m.pointer) with ⟨r, m''⟩
      rw [hrec] at hp
      dsimp only at hp
      rw [hg.pointer_eq, hmem] at hp
      rw [← hp.2]
      cases r with
      | error e => exact ⟨growsOnly_trans hg hp.1, rfl⟩
      | ok parameters => exact ⟨growsOnly_trans hg hp.1, rfl⟩

theorem exec_binary_length_le (m : Machine) (ps : List Parameter) (f : Int → Int → Int) :
    m.slots.length ≤ (m.exec_binary ps f).2.slots.length := by
  unfold Machine.exec_binary
  rcases h1 : m.get_parameter_val (ps.getD 0 default_param) with ⟨r1, m1⟩
  have g1 : GrowsOnly m m1 := by
    have := growsOnly_gpv m (ps.getD 0 default_param); rwa [h1] at this
  cases r1 with
  | error e => exact g1.len_le
  | ok left =>
    dsimp only
    rcases h2 : m1.get_parameter_val (ps.getD 1 default_param) with ⟨r2, m2⟩
    have g2 : GrowsOnly m1 m2 := by
      have := growsOnly_gpv m1 (ps.getD 1 default_param); rwa [h2] at this
    cases r2 with
    | error e => exact le_trans g1.len_le g2.len_le
    | ok right =>
      dsimp only
      exact le_trans (le_trans g1.len_le g2.len_le) (setp_length_le m2 _ _)

theorem exec_binary_error_growsOnly (m : Machine) (ps : List Parameter) (f : Int → Int → Int)
    (e : OperationalError) (m' : Machine) (h : m.exec_binary ps f = (.error e, m')) :
    GrowsOnly m m' := by
  unfold Machine.exec_binary at h
  rcases h1 : m.get_parameter_val (ps.getD 0 default_param) with ⟨r1, m1⟩
  rw [h1] at h
  have g1 : GrowsOnly m m1 := by
    have := growsOnly_gpv m (ps.getD 0 default_param); rwa [h1] at this
  cases r1 with
  | error e1 => cases h; exact g1
  | ok left =>
    dsimp only at h
    rcases h2 : m1.get_parameter_val (ps.getD 1 default_param) with ⟨r2, m2⟩
    rw [h2] at h
    have g2 : GrowsOnly m1 m2 := by
      have := growsOnly_gpv m1 (ps.getD 1 default_param); rwa [h2] at this
    cases r2 with
    | error e2 => cases h; exact growsOnly_trans g1 g2
    | ok right =>
      dsimp only at h
      exact growsOnly_trans (growsOnly_trans g1 g2) (setp_error_growsOnly m2 _ _ e m' h)

theorem exec_jump_length_le (m : Machine) (ps : List Parameter) (cond : Int → Bool) :
    m.slots.length ≤ (m.exec_jump ps cond).1.2.slots.length := by
  unfold Machine.exec_jump
  rcases h1 : m.get_parameter_val (ps.getD 0 default_param) with ⟨r1, m1⟩
  have g1 : GrowsOnly m m1 := by
    have := growsOnly_gpv m (ps.getD 0 default_param); rwa [h1] at this
  cases r1 with
  | error e => exact g1.len_le
  | ok v =>
    dsimp only
    by_cases hc : cond v
    · rw [if_pos hc]
      rcases h2 : m1.get_parameter_val (ps.getD 1 default_param) with ⟨r2, m2⟩
      have g2 : GrowsOnly m1 m2 := by
        have := growsOnly_gpv m1 (ps.getD 1 default_param); rwa [h2] at this
      cases r2 with
      | error e => exact le_trans g1.len_le g2.len_le
      | ok t =>
        dsimp only
        cases ha : into_addr t with
        | error e => exact le_trans g1.len_le g2.len_le
        | ok a => exact le_trans g1.len_le g2.len_le
    · rw [if_neg hc]
      exact g1.len_le

theorem exec_jump_error_growsOnly (m : Machine) (ps : List Parameter) (cond : Int → Bool)
    (e : OperationalError) (m' : Machine) (h : (m.exec_jump ps cond).1 = (.error e, m')) :
    GrowsOnly m m' := by
  unfold Machine.exec_jump at h
  rcases h1 : m.get_parameter_val (ps.getD 0 default_param) with ⟨r1, m1⟩
  rw [h1] at h
  have g1 : GrowsOnly m m1 := by
    have := growsOnly_gpv m (ps.getD 0 default_param); rwa [h1] at this
  cases r1 with
  | error e1 => cases h; exact g1
  | ok v =>
    dsimp only at h
    by_cases hc : cond v
    · rw [if_pos hc] at h
      rcases h2 : m1.get_parameter_val (ps.getD 1 default_param) with ⟨r2, m2⟩
      rw [h2] at h
      have g2 : GrowsOnly m1 m2 := by
        have := growsOnly_gpv m1 (ps.getD 1 default_param); rwa [h2] at this
      cases r2 with
      | error e2 => cases h; exact growsOnly_trans g1 g2
      | ok t =>
        dsimp only at h
        cases ha : into_addr t with
        | error e3 => rw [ha] at h; cases h; exact growsOnly_trans g1 g2
        | ok a => rw [ha] at h; cases h
    · rw [if_neg hc] at h
      cases h

theorem exec_core_length_le (m : Machine) (instr : Instruction) :
    m.slots.length ≤ (m.execute_core instr).1.2.slots.length := by
  unfold Machine.execute_core
  cases instr.opcode with
  | Halt => exact le_refl _
  | Add => exact exec_binary_length_le m _ _
  | Multiply => exact exec_binary_length_le m _ _
  | LessThan => exact exec_binary_length_le m _ _
  | Equals => exact exec_binary_length_le m _ _
  | JumpIfTrue => exact exec_jump_length_le m _ _
  | JumpIfFalse => exact exec_jump_length_le m _ _
  | Input =>
    dsimp only
    cases hin : m.input[m.input_pointer]? with
    | none => exact le_refl _
    | some val =>
      dsimp only
      rcases hs : m.set_at_parameter (instr.parameters.getD 0 default_param) val with ⟨rs, ms⟩
      have hl := setp_length_le m (instr.parameters.getD 0 default_param) val
      rw [hs] at hl
      cases rs with
      | error e => exact hl
      | ok u => exact hl
  | Output =>
    dsimp only
    rcases h1 : m.get_parameter_val (instr.parameters.getD 0 default_param) with ⟨r1, m1⟩
    have g1 : GrowsOnly m m1 := by
      have := growsOnly_gpv m (instr.parameters.getD 0 default_param); rwa [h1] at this
    cases r1 with
    | error e => exact g1.len_le
    | ok val => exact g1.len_le
  | RelativeBaseOffset =>
    dsimp only
    rcases h1 : m.get_parameter_val (instr.parameters.getD 0 default_param) with ⟨r1, m1⟩
    have g1 : GrowsOnly m m1 := by
      have := growsOnly_gpv m (instr.parameters.getD 0 default_param); rwa [h1] at this
    cases r1 with
    | error e => exact g1.len_le
    | ok value => exact g1.len_le

theorem exec_core_error_growsOnly (m : Machine) (instr : Instruction) (e : OperationalError)
    (m' : Machine) (h : (m.execute_core instr).1 = (.error e, m')) : GrowsOnly m m' := by
  unfold Machine.execute_core at h
  cases hop : instr.opcode <;> rw [hop] at h <;> dsimp only at h
  case Halt => simp at h
  case Add => exact exec_binary_error_growsOnly m _ _ e m' h
  case Multiply => exact exec_binary_error_growsOnly m _ _ e m' h
  case LessThan => exact exec_binary_error_growsOnly m _ _ e m' h
  case Equals => exact exec_binary_error_growsOnly m _ _ e m' h
  case JumpIfTrue => exact exec_jump_error_growsOnly m _ _ e m' h
  case JumpIfFalse => exact exec_jump_error_growsOnly m _ _ e m' h
  case Input =>
    cases hin : m.input[m.input_pointer]? with
    | none => rw [hin] at h; simp at h
    | some val =>
      rw [hin] at h
      dsimp only at h
      rcases hs : m.set_at_parameter (instr.parameters.getD 0 default_param) val with ⟨rs, ms⟩
      rw [hs] at h
      cases rs with
      | error e1 => cases h; exact setp_error_growsOnly m _ _ e m' hs
      | ok u => simp at h
  case Output =>
    rcases h1 : m.get_parameter_val (instr.parameters.getD 0 default_param) with ⟨r1, m1⟩
    rw [h1] at h
    have g1 : GrowsOnly m m1 := by
      have := growsOnly_gpv m (instr.parameters.getD 0 default_param); rwa [h1] at this
    cases r1 with
    | error e1 => cases h; exact g1
    | ok val => simp at h
  case RelativeBaseOffset =>
    rcases h1 : m.get_parameter_val (instr.parameters.getD 0 default_param) with ⟨r1, m1⟩
    rw [h1] at h
    have g1 : GrowsOnly m m1 := by
      have := growsOnly_gpv m (instr.parameters.getD 0 default_param); rwa [h1] at this
    cases r1 with
    | error e1 => cases h; exact g1
    | ok value => simp at h

theorem execute_not_running (m : Machine) (instr : Instruction) (h : m.state ≠ .Running) :
    m.execute_instruction instr = (.ok (), m) := by
  unfold Machine.execute_instruction
  rw [if_pos h]

theorem execute_length_le (m : Machine) (instr : Instruction) :
    m.slots.length ≤ (m.execute_instruction instr).2.slots.length := by
  unfold Machine.execute_instruction
  by_cases hs : m.state ≠ .Running
  · rw [if_pos hs]
  · rw [if_neg hs]
    rcases hc : m.execute_core instr with ⟨⟨rc, mc⟩, adv⟩
    have hl := exec_core_length_le m instr
    rw [hc] at hl
    cases rc with
    | error e => exact hl
    | ok u =>
      dsimp only
      cases adv with
      | true => exact hl
      | false => exact hl

theorem execute_error_growsOnly (m : Machine) (instr : Instruction) (e : OperationalError)
    (m' : Machine) (h : m.execute_instruction instr = (.error e, m')) : GrowsOnly m m' := by
  unfold Machine.execute_instruction at h
  by_cases hs : m.state ≠ .Running
  · rw [if_pos hs] at h; simp at h
  · rw [if_neg hs] at h
    rcases hc : m.execute_core instr with ⟨⟨rc, mc⟩, adv⟩
    rw [hc] at h
    cases rc with
    | error e1 =>
      cases h
      exact exec_core_error_growsOnly m instr e m' (by rw [hc])
    | ok u =>
      dsimp only at h
      cases adv with
      | true => simp at h
      | false => simp at h

theorem step_error_growsOnly (m : Machine) (e : OperationalError) (m' : Machine)
    (h : m.step = (.error e, m')) : GrowsOnly m m' := by
  unfold Machine.step at h
  rcases hri : m.read_instruction with ⟨r, m₁⟩
  rw [hri] at h
  have g1 : GrowsOnly m m₁ := by
    have := (read_instruction_spec m).1; rwa [hri] at this
  cases r with
  | error e1 => cases h; exact g1
  | ok instr =>
    dsimp only at h
    exact growsOnly_trans g1 (execute_error_growsOnly m₁ instr e m' h)

theorem step_length_le (m : Machine) : m.slots.length ≤ m.step.2.slots.length := by
  unfold Machine.step
  rcases hri : m.read_instruction with ⟨r, m₁⟩
  have g1 : GrowsOnly m m₁ := by
    have := (read_instruction_spec m).1; rwa [hri] at this
  cases r with
  | error e => exact g1.len_le
  | ok instr => exact le_trans g1.len_le (execute_length_le m₁ instr)

theorem step_not_running (m : Machine) (h : m.state ≠ .Running) :
    m.step = (Except.map (fun _ => ()) m.read_instruction.1, m.read_instruction.2) := by
  unfold Machine.step
  rcases hri : m.read_instruction with ⟨r, m₁⟩
  have hst : m₁.state = m.state := by
    have := (read_instruction_spec m).1; rw [hri] at this; exact this.state_eq
  cases r with
  | error e => rfl
  | ok instr =>
    dsimp only
    rw [execute_not_running m₁ instr (by rw [hst]; exact h)]
    rfl

theorem run_length_le : ∀ (f : Nat) (m : Machine) (r : Except OperationalError Unit) (mf : Machine),
    Machine.run f m = some (r, mf) → m.slots.length ≤ mf.slots.length := by
  intro f
  induction f with
  | zero => intro m r mf h; simp [Machine.run] at h
  | succ f ih =>
    intro m r mf h
    unfold Machine.run at h
    rcases hs : m.step with ⟨rs, ms⟩
    rw [hs] at h
    have hl : m.slots.length ≤ ms.slots.length := by
      have := step_length_le m; rwa [hs] at this
    cases rs with
    | error e =>
      dsimp only at h
      simp only [Option.some_inj, Prod.mk.injEq] at h
      rw [← h.2]; exact hl
    | ok u =>
      dsimp only at h
      cases hstate : ms.state with
      | Halted =>
        rw [hstate] at h
        simp only [Option.some_inj, Prod.mk.injEq] at h
        rw [← h.2]; exact hl
      | Blocked =>
        rw [hstate] at h
        simp only [Option.some_inj, Prod.mk.injEq] at h
        rw [← h.2]; exact hl
      | Running =>
        rw [hstate] at h
        exact le_trans hl (ih ms r mf h)

theorem run_error_reaches : ∀ (f : Nat) (m : Machine) (e : OperationalError) (mf : Machine),
    Machine.run f m = some (.error e, mf) →
    ∃ m₀, RunReaches m m₀ ∧ m₀.step = (.error e, mf) ∧ GrowsOnly m₀ mf := by
  intro f
  induction f with
  | zero => intro m e mf h; simp [Machine.run] at h
  | succ f ih =>
    intro m e mf h
    unfold Machine.run at h
    rcases hs : m.step with ⟨rs, ms⟩
    rw [hs] at h
    cases rs with
    | error e1 =>
      dsimp only at h
      simp only [Option.some_inj, Prod.mk.injEq, Except.error.injEq] at h
      rw [← h.1, ← h.2]
      exact ⟨m, RunReaches.refl m, hs, step_error_growsOnly m e1 ms hs⟩
    | ok u =>
      dsimp only at h
      cases hstate : ms.state with
      | Halted => rw [hstate] at h; simp at h
      | Blocked => rw [hstate] at h; simp at h
      | Running =>
        rw [hstate] at h
        obtain ⟨m₀, hr, hstep, hg⟩ := ih ms e mf h
        cases u
        exact ⟨m₀, RunReaches.step m ms m₀ hs hstate hr, hstep, hg⟩

theorem run_halted_eq (m : Machine) (h : m.state = .Halted) (f : Nat) (hf : 1 ≤ f) :
    Machine.run f m = some (Except.map (fun _ => ()) m.read_instruction.1, m.read_instruction.2) := by
  cases f with
  | zero => omega
  | succ f =>
    unfold Machine.run
    have hns : m.state ≠ .Running := by rw [h]; exact fun hc => MachineState.noConfusion hc
    rw [step_not_running m hns]
    rcases hri : m.read_instruction with ⟨r, m₁⟩
    have hst : m₁.state = .Halted := by
      have := (read_instruction_spec m).1; rw [hri] at this; rw [this.state_eq, h]
    cases r with
    | error e => rfl
    | ok instr =>
      simp only [Except.map]
      rw [hst]

theorem memVal_zero_of_le (m : Machine) (i : Nat) (h : m.slots.length ≤ i) : m.memVal i = 0 := by
  unfold Machine.memVal
  rw [List.getD_eq_getElem?_getD, List.getElem?_eq_none h]
  rfl

theorem write_fields (m : Machine) (v : Int) :
    (m.write v).input = m.input ++ [v] ∧ (m.write v).slots = m.slots ∧
    (m.write v).pointer = m.pointer ∧ (m.write v).relative_base = m.relative_base ∧
    (m.write v).input_pointer = m.input_pointer ∧ (m.write v).output = m.output ∧
    (m.write v).output_pointer = m.output_pointer ∧
    (m.write v).instruction_counter = m.instruction_counter ∧
    (m.write v).state = (if m.state = MachineState.Blocked then .Running else m.state) := by
  unfold Machine.write
  dsimp only
  by_cases h : m.state = MachineState.Blocked
  · rw [if_pos h, if_pos h]
    exact ⟨rfl, rfl, rfl, rfl, rfl, rfl, rfl, rfl, rfl⟩
  · rw [if_neg h, if_neg h]
    exact ⟨rfl, rfl, rfl, rfl, rfl, rfl, rfl, rfl, rfl⟩

theorem read_snd (m : Machine) : (Machine.read m).2 =
    if m.output_pointer ≥ m.output.length then m
    else { m with output_pointer := m.output.length } := by
  unfold Machine.read
  by_cases h : m.output_pointer ≥ m.output.length
  · rw [if_pos h, if_pos h]
  · rw [if_neg h, if_neg h]

/-- C5 counterexample: the claim says duplication yields fresh, empty I/O
queues; but `clone` (the derived impl behind the spec's `duplicate`)
copies the input queue, so duplicating a machine holding the pushed
input `5` yields a copy whose input queue is `[5]`, not empty. -/
theorem C5_counterexample :
    (((Machine.from_slots [99]).write 5).duplicate).input = [5] ∧
    ¬ (((Machine.from_slots [99]).write 5).duplicate).input = [] := by
  constructor
  · rfl
  · intro h
    simp [Machine.duplicate, Machine.write, Machine.from_slots] at h

/-- C5 (amended): `duplicate` (the derived `Clone`) copies every field of
the machine: memory is copied as-is, and both I/O queues and their
cursors are copied from the original rather than being fresh and empty;
the copy equals the original field for field. -/
theorem C5_duplicate_copies_all_fields (m : Machine) :
    m.duplicate.slots = m.slots ∧ m.duplicate.pointer = m.pointer ∧
    m.duplicate.state = m.state ∧ m.duplicate.relative_base = m.relative_base ∧
    m.duplicate.input_pointer = m.input_pointer ∧ m.duplicate.input = m.input ∧
    m.duplicate.output_pointer = m.output_pointer ∧ m.duplicate.output = m.output ∧
    m.duplicate.instruction_counter = m.instruction_counter :=
  ⟨rfl, rfl, rfl, rfl, rfl, rfl, rfl, rfl, rfl⟩

/-- C7: constructing a machine from the program text
`1,9,10,3,2,3,11,0,99,30,40,50` and running it to completion yields
memory address 0 equal to 3500 and state `Halted`. -/
theorem C7_scenario_a :
    (Machine.from_str ("1,9,10,3,2,3,11,0,99,30,40,50")).map
      (fun mach => (Machine.run 10 mach).map (fun r => (r.1, r.2.memVal 0, r.2.state)))
    = .ok (some (.ok (), 3500, .Halted)) := by decide

/-- C8: draining twice in a row returns the empty sequence the second
time and leaves the machine unchanged: `read` on the machine returned by
a previous `read` yields `[]` and that same machine. -/
theorem C8_drain_idempotent (m : Machine) :
    Machine.read (Machine.read m).2 = ([], (Machine.read m).2) := by
  rw [read_snd m]
  by_cases h : m.output_pointer ≥ m.output.length
  · rw [if_pos h]
    unfold Machine.read
    rw [if_pos h]
  · rw [if_neg h]
    unfold Machine.read
    dsimp only
    rw [if_pos (le_refl _)]

/-- C10: `OutOfRange` is unreachable through `get`/`set` (the spec's
`read_cell`/`write_cell`): at a `usize` address they always succeed, and
at a `Value` address they succeed exactly when the address is
nonnegative, failing with `NegativeAddress` otherwise — never with
`OutOfRange`. -/
theorem C10_no_out_of_range (m : Machine) (i : Int) (a : Nat) (v : Int) :
    (m.getI i).1 = (if i < 0 then .error (.NegativeAddress i) else .ok (m.memVal i.toNat)) ∧
    (m.setI i v).1 = (if i < 0 then .error (.NegativeAddress i) else .ok ()) ∧
    (m.get a).1 = .ok (m.memVal a) ∧
    (m.set a v).1 = .ok () := by
  refine ⟨?_, ?_, ?_, ?_⟩
  · by_cases h : i < 0
    · rw [getI_neg m i h, if_pos h]
    · rw [getI_nonneg m i (not_lt.mp h), if_neg h]
  · by_cases h : i < 0
    · rw [setI_neg m i v h, if_pos h]
    · rw [setI_nonneg m i v (not_lt.mp h), set_eq, if_neg h]
  · rw [get_eq]
  · rw [set_eq]

/-- C6: writing (`set`) to an address at or beyond the current memory
length succeeds, grows memory to exactly that address inclusive (new
length = address + 1), zero-fills every intermediate address, and no
operation — `set`, `get` (either index type), `write`, `read`, or a
whole `run` — ever shrinks memory. -/
theorem C6_grow_on_write (m : Machine) (a : Nat) (v : Int) (h : m.slots.length ≤ a) :
    (m.set a v).1 = .ok () ∧
    (m.set a v).2.slots.length = a + 1 ∧
    (∀ i : Nat, m.slots.length ≤ i → i < a → (m.set a v).2.memVal i = 0) ∧
    (∀ (m₁ : Machine) (a₁ : Nat) (v₁ : Int), m₁.slots.length ≤ (m₁.set a₁ v₁).2.slots.length) ∧
    (∀ (m₁ : Machine) (a₁ : Nat), m₁.slots.length ≤ (m₁.get a₁).2.slots.length) ∧
    (∀ (m₁ : Machine) (i : Int), m₁.slots.length ≤ (m₁.getI i).2.slots.length) ∧
    (∀ (m₁ : Machine) (i v₁ : Int), m₁.slots.length ≤ (m₁.setI i v₁).2.slots.length) ∧
    (∀ (m₁ : Machine) (v₁ : Int), (m₁.write v₁).slots = m₁.slots) ∧
    (∀ m₁ : Machine, (Machine.read m₁).2.slots = m₁.slots) ∧
    (∀ (fuel : Nat) (m₁ m₂ : Machine) (r : Except OperationalError Unit),
      Machine.run fuel m₁ = some (r, m₂) → m₁.slots.length ≤ m₂.slots.length) := by
  refine ⟨by rw [set_eq], ?_, ?_, ?_, ?_, ?_, ?_, ?_, ?_, ?_⟩
  · rw [set_length, grow_length_eq m a h]
  · intro i hi hia
    rw [set_memVal_other m a v i (Nat.ne_of_lt hia), memVal_zero_of_le m i hi]
  · exact fun m₁ a₁ v₁ => set_length_le m₁ a₁ v₁
  · intro m₁ a₁
    rw [get_eq]
    exact grow_length_le m₁ a₁
  · intro m₁ i
    exact (growsOnly_getI m₁ i).len_le
  · intro m₁ i v₁
    by_cases hi : i < 0
    · rw [setI_neg m₁ i v₁ hi]
    · rw [setI_nonneg m₁ i v₁ (not_lt.mp hi)]
      exact set_length_le m₁ _ v₁
  · exact fun m₁ v₁ => (write_fields m₁ v₁).2.1
  · intro m₁
    rw [read_snd]
    by_cases h₁ : m₁.output_pointer ≥ m₁.output.length
    · rw [if_pos h₁]
    · rw [if_neg h₁]
  · exact fun fuel m₁ m₂ r hr => run_length_le fuel m₁ r m₂ hr

/-- C6 witness: on the one-word program `99` (length 1), writing value 7
to address 3 succeeds and leaves memory of length 4 with the gap
zero-filled. -/
theorem C6_witness :
    (Machine.from_slots [99]).slots.length ≤ 3 ∧
    ((Machine.from_slots [99]).set 3 7).1 = .ok () ∧
    ((Machine.from_slots [99]).set 3 7).2.slots.length = 3 + 1 ∧
    ((Machine.from_slots [99]).set 3 7).2.memVal 2 = 0 :=
  ⟨by decide,
   (C6_grow_on_write (Machine.from_slots [99]) 3 7 (by decide)).1,
   (C6_grow_on_write (Machine.from_slots [99]) 3 7 (by decide)).2.1,
   (C6_grow_on_write (Machine.from_slots [99]) 3 7 (by decide)).2.2.1 2 (by decide) (by decide)⟩

/-- C9: `Halted` is absorbing.  For a halted machine, `run` (any fuel)
returns a machine still `Halted`, `write` (push) leaves it `Halted`,
`read` (drain) leaves it `Halted`, and `get`/`set`/`getI`/`setI`
(read_cell/write_cell) leave it `Halted`; moreover push flips the state
only from `Blocked` to `Running` and preserves it otherwise. -/
theorem C9_halted_absorbing (m : Machine) (h : m.state = .Halted) :
    (∀ (f : Nat) (r : Except OperationalError Unit) (m' : Machine),
        Machine.run f m = some (r, m') → m'.state = .Halted) ∧
    (∀ v : Int, (m.write v).state = .Halted) ∧
    (Machine.read m).2.state = .Halted ∧
    (∀ a : Nat, (m.get a).2.state = .Halted) ∧
    (∀ (a : Nat) (v : Int), (m.set a v).2.state = .Halted) ∧
    (∀ i : Int, (m.getI i).2.state = .Halted) ∧
    (∀ i v : Int, (m.setI i v).2.state = .Halted) ∧
    (∀ (m₁ : Machine) (v : Int), m₁.state ≠ .Blocked → (m₁.write v).state = m₁.state) := by
  refine ⟨?_, ?_, ?_, ?_, ?_, ?_, ?_, ?_⟩
  · intro f r m' hr
    cases f with
    | zero => simp [Machine.run] at hr
    | succ f =>
      rw [run_halted_eq m h (f + 1) (by omega)] at hr
      simp only [Option.some_inj, Prod.mk.injEq] at hr
      rw [← hr.2, (read_instruction_spec m).1.state_eq, h]
  · intro v
    rw [(write_fields m v).2.2.2.2.2.2.2.2, if_neg (by rw [h]; exact fun hc => MachineState.noConfusion hc), h]
  · rw [read_snd]
    by_cases h₁ : m.output_pointer ≥ m.output.length
    · rw [if_pos h₁]; exact h
    · rw [if_neg h₁]; exact h
  · intro a
    rw [(growsOnly_get m a).state_eq, h]
  · intro a v
    rw [(set_fields m a v).2.1, h]
  · intro i
    rw [(growsOnly_getI m i).state_eq, h]
  · intro i v
    by_cases hi : i < 0
    · rw [setI_neg m i v hi]; exact h
    · rw [setI_nonneg m i v (not_lt.mp hi), (set_fields m _ v).2.1]; exact h
  · intro m₁ v h₁
    rw [(write_fields m₁ v).2.2.2.2.2.2.2.2, if_neg h₁]

/-- C9 witness: the halted machine left by running the program `99`. -/
theorem C9_witness :
    halted99.state = .Halted ∧
    (∀ v : Int, (halted99.write v).state = .Halted) ∧
    (Machine.read halted99).2.state = .Halted :=
  ⟨by decide,
   (C9_halted_absorbing halted99 (by decide)).2.1,
   (C9_halted_absorbing halted99 (by decide)).2.2.1⟩

/-- C1 counterexample: running the program `99` leaves `halted99`
(state `Halted`, memory `[99]`).  A subsequent `run` is NOT a no-op: it
still decodes the word past the end of the program, so it grows memory
to `[99, 0]` and returns the error `InvalidOpcode 0` instead of
returning successfully with everything unchanged. -/
theorem C1_counterexample :
    Machine.run 1 (Machine.from_slots [99]) = some (.ok (), halted99) ∧
    halted99.state = .Halted ∧
    halted99.slots = [99] ∧
    Machine.run 1 halted99 =
      some (.error (.InvalidOpcode 0), { halted99 with slots := [99, 0] }) := by
  decide

/-- C1 (amended): for a halted machine, `run` executes nothing — it
attempts one decode at the current pointer and then returns.  Pointer,
state, relative base, both I/O queues and the instruction counter are
unchanged and every memory address reads the same value (the buffer may
only zero-grow); the call returns `Ok` when the word at the pointer
decodes and propagates the decode error otherwise. -/
theorem C1_halted_run_decodes_only (m : Machine) (h : m.state = .Halted) (f : Nat) (hf : 1 ≤ f) :
    Machine.run f m =
      some (Except.map (fun _ => ()) m.read_instruction.1, m.read_instruction.2) ∧
    GrowsOnly m m.read_instruction.2 :=
  ⟨run_halted_eq m h f hf, (read_instruction_spec m).1⟩

/-- C1 witness: the amended statement instantiated at `halted99`. -/
theorem C1_witness :
    halted99.state = .Halted ∧ 1 ≤ 1 ∧
    (Machine.run 1 halted99 =
      some (Except.map (fun _ => ()) halted99.read_instruction.1, halted99.read_instruction.2) ∧
    GrowsOnly halted99 halted99.read_instruction.2) :=
  ⟨by decide, by decide, C1_halted_run_decodes_only halted99 (by decide) 1 (by decide)⟩

/-- C2: when `run` returns an operational error, the error of the failing
decode/execute cycle is propagated as-is, the loop stops at that cycle,
and the machine the caller observes is the machine `m₀` reached after
the last fully completed instruction up to invisible zero-fill growth:
all control fields, both I/O queues and every observable memory value
are exactly those of `m₀` (`GrowsOnly m₀ mf`). -/
theorem C2_error_stops_immediately (f : Nat) (m : Machine) (e : OperationalError) (mf : Machine)
    (h : Machine.run f m = some (.error e, mf)) :
    ∃ m₀, RunReaches m m₀ ∧ m₀.step = (.error e, mf) ∧ GrowsOnly m₀ mf :=
  run_error_reaches f m e mf h

/-- C2 witness: the program `1,-1,0,0` fails on its first instruction
(`Add` reading the negative address `-1`) with no visible effect. -/
theorem C2_witness :
    ∃ m₀, RunReaches (Machine.from_slots [1, -1, 0, 0]) m₀ ∧
      m₀.step = (.error (.NegativeAddress (-1)), Machine.from_slots [1, -1, 0, 0]) ∧
      GrowsOnly m₀ (Machine.from_slots [1, -1, 0, 0]) :=
  C2_error_stops_immediately 1 (Machine.from_slots [1, -1, 0, 0]) (.NegativeAddress (-1))
    (Machine.from_slots [1, -1, 0, 0]) (by decide)

/-- A mode-digit portion with any decimal digit above 2, or with more
than three digits, is not in the inlined lookup table, so
`mode_int_to_vec` rejects it with `InvalidModeDigits`. -/
theorem mode_int_to_vec_error (d : Int)
    (hbad : d % 10 ≥ 3 ∨ (d / 10) % 10 ≥ 3 ∨ (d / 100) % 10 ≥ 3 ∨ d ≥ 1000) :
    mode_int_to_vec d = .error (.InvalidModeDigits d) := by
  unfold mode_int_to_vec
  rw [if_neg (by omega : ¬(d = 0)), if_neg (by omega : ¬(d = 1)), if_neg (by omega : ¬(d = 2)),
    if_neg (by omega : ¬(d = 10)), if_neg (by omega : ¬(d = 11)), if_neg (by omega : ¬(d = 12)),
    if_neg (by omega : ¬(d = 20)), if_neg (by omega : ¬(d = 21)), if_neg (by omega : ¬(d = 22)),
    if_neg (by omega : ¬(d = 100)), if_neg (by omega : ¬(d = 101)), if_neg (by omega : ¬(d = 102)),
    if_neg (by omega : ¬(d = 110)), if_neg (by omega : ¬(d = 111)), if_neg (by omega : ¬(d = 112)),
    if_neg (by omega : ¬(d = 120)), if_neg (by omega : ¬(d = 121)), if_neg (by omega : ¬(d = 122)),
    if_neg (by omega : ¬(d = 200)), if_neg (by omega : ¬(d = 201)), if_neg (by omega : ¬(d = 202)),
    if_neg (by omega : ¬(d = 210)), if_neg (by omega : ¬(d = 211)), if_neg (by omega : ¬(d = 212)),
    if_neg (by omega : ¬(d = 220)), if_neg (by omega : ¬(d = 221)), if_neg (by omega : ¬(d = 222))]

/-- C4 counterexample: decoding the nonnegative instruction word `301`
(valid opcode `Add`, unrecognized mode digit `3`) fails with
`InvalidModeDigits 3`, not with `InvalidParameterMode` as the claim
states. -/
theorem C4_counterexample :
    (Machine.from_slots [301]).read_instruction.1 = .error (.InvalidModeDigits 3) ∧
    ¬ (Machine.from_slots [301]).read_instruction.1 = .error (.InvalidParameterMode 3) := by
  decide

/-- C4 (amended): for a nonnegative instruction word whose opcode digits
decode, a mode-digit portion holding an unrecognized digit (one above 2)
or more than three digits makes decoding fail with `InvalidModeDigits`
carrying that portion (not `InvalidParameterMode`, which is unreachable
from `read_instruction`); and when the portion is one of the recognized
digit combinations but carries more digits than the opcode's arity,
decoding fails with `TooManyParameterModes` carrying the whole word. -/
theorem C4_mode_digit_failures (m : Machine) (op : Opcode)
    (hw : 0 ≤ m.memVal m.pointer)
    (hop : Opcode.from_int (m.memVal m.pointer % 100) = .ok op) :
    ((m.memVal m.pointer / 100) % 10 ≥ 3 ∨ ((m.memVal m.pointer / 100) / 10) % 10 ≥ 3 ∨
      ((m.memVal m.pointer / 100) / 100) % 10 ≥ 3 ∨ (m.memVal m.pointer / 100) ≥ 1000 →
      m.read_instruction.1 = .error (.InvalidModeDigits (m.memVal m.pointer / 100))) ∧
    (∀ ds : List Int, mode_int_to_vec (m.memVal m.pointer / 100) = .ok ds →
      ds.length > op.parameter_count →
      m.read_instruction.1 = .error (.TooManyParameterModes (m.memVal m.pointer))) := by
  constructor
  · intro hbad
    rw [(read_instruction_spec m).2]
    unfold decode_pure Instruction.op_and_mode_digits
    rw [if_neg (not_lt.mpr hw), hop]
    rw [mode_int_to_vec_error _ hbad]
  · intro ds hds hlen
    rw [(read_instruction_spec m).2]
    unfold decode_pure Instruction.op_and_mode_digits
    rw [if_neg (not_lt.mpr hw), hop, hds]
    dsimp only
    rw [List.length_reverse, if_pos hlen]

/-- C4 witness: word `301` (mode digit 3) yields `InvalidModeDigits 3`;
word `1103` (opcode `Input`, arity 1, two mode digits) yields
`TooManyParameterModes 1103`. -/
theorem C4_witness :
    (Machine.from_slots [301]).read_instruction.1 = .error (.InvalidModeDigits 3) ∧
    (Machine.from_slots [1103]).read_instruction.1 = .error (.TooManyParameterModes 1103) :=
  ⟨(C4_mode_digit_failures (Machine.from_slots [301]) .Add (by decide) (by decide)).1
      (by decide),
   (C4_mode_digit_failures (Machine.from_slots [1103]) .Input (by decide) (by decide)).2
      [1, 1] (by decide) (by decide)⟩

/-- C3: an `Input` instruction facing an input queue with no unconsumed
value blocks: the cycle succeeds, the state becomes `Blocked` and the
pointer is left unmoved (so `run` returns right there); a subsequent
push (`write`) flips the state back to `Running` and appends the value;
the next cycle then decodes the very same `Input` instruction and stores
the pushed value at the address its write parameter resolves to,
consuming the value and advancing the pointer past the instruction. -/
theorem C3_input_blocks_then_retries (m : Machine) (p : Parameter) (a : Nat)
    (hrun : m.state = .Running)
    (hdec : m.read_instruction.1 = .ok ⟨.Input, [p]⟩)
    (hemp : m.input_pointer = m.input.length)
    (haddr : writeAddr p m.relative_base = .ok a) :
    ∃ m₂ : Machine, m.step = (.ok (), m₂) ∧ m₂.state = .Blocked ∧ m₂.pointer = m.pointer ∧
    (∀ f : Nat, 1 ≤ f → Machine.run f m = some (.ok (), m₂)) ∧
    ∀ v : Int,
      (m₂.write v).state = .Running ∧ (m₂.write v).input = m.input ++ [v] ∧
      (m₂.write v).read_instruction.1 = .ok ⟨.Input, [p]⟩ ∧
      ∃ m₆ : Machine, (m₂.write v).step = (.ok (), m₆) ∧
        m₆.memVal a = v ∧ m₆.input_pointer = m.input_pointer + 1 ∧
        m₆.state = .Running ∧ m₆.pointer = m.pointer + 2 := by
  rcases hri : m.read_instruction with ⟨r, m₁⟩
  have hspec := read_instruction_spec m
  rw [hri] at hspec
  dsimp only at hspec
  obtain ⟨g₁, hval⟩ := hspec
  rw [hri] at hdec
  dsimp only at hdec
  subst hdec
  have hr₁ : m₁.state = .Running := by rw [g₁.state_eq, hrun]
  have hnone : m₁.input[m₁.input_pointer]? = none := by
    rw [g₁.input_eq, g₁.inp_eq, hemp]
    exact List.getElem?_eq_none (le_refl _)
  have hstep : m.step = (.ok (),
      { m₁ with state := .Blocked, instruction_counter := m₁.instruction_counter + 1 }) := by
    unfold Machine.step
    rw [hri]
    dsimp only
    unfold Machine.execute_instruction
    rw [if_neg (by rw [hr₁]; exact fun hc => hc rfl)]
    unfold Machine.execute_core
    dsimp only
    rw [hnone]
    rfl
  refine ⟨{ m₁ with state := .Blocked, instruction_counter := m₁.instruction_counter + 1 },
    hstep, rfl, g₁.pointer_eq, ?_, ?_⟩
  · intro f hf
    cases f with
    | zero => omega
    | succ f =>
      unfold Machine.run
      rw [hstep]
  · intro v
    have hw : ({ m₁ with state := .Blocked, instruction_counter := m₁.instruction_counter + 1 } : Machine).write v
        = { m₁ with state := .Running, instruction_counter := m₁.instruction_counter + 1, input := m₁.input ++ [v] } := by
      unfold Machine.write
      dsimp only
      rw [if_pos rfl]
    have hdec3 : (({ m₁ with state := .Blocked, instruction_counter := m₁.instruction_counter + 1 } : Machine).write v).read_instruction.1
        = .ok ⟨.Input, [p]⟩ := by
      rw [hw, (read_instruction_spec _).2]
      have hmm2 : ({ m₁ with state := .Running, instruction_counter := m₁.instruction_counter + 1, input := m₁.input ++ [v] } : Machine).memVal = m.memVal :=
        funext fun x => g₁.memVal_eq x
      show decode_pure m₁.pointer _ = _
      rw [hmm2, g₁.pointer_eq, ← (read_instruction_spec m).2, hri]
    refine ⟨by rw [hw], by rw [hw]; dsimp only; rw [g₁.input_eq], hdec3, ?_⟩
    rcases hri3 : (({ m₁ with state := .Blocked, instruction_counter := m₁.instruction_counter + 1 } : Machine).write v).read_instruction
      with ⟨r₃, m₄⟩
    have hspec3 := read_instruction_spec (({ m₁ with state := .Blocked, instruction_counter := m₁.instruction_counter + 1 } : Machine).write v)
    rw [hri3] at hspec3
    dsimp only at hspec3
    obtain ⟨g₃, hval3⟩ := hspec3
    rw [hri3] at hdec3
    dsimp only at hdec3
    subst hdec3
    have h4state : m₄.state = .Running := by rw [g₃.state_eq, hw]
    have hm4inp : m₄.input_pointer = m.input.length := by
      rw [g₃.inp_eq, hw]
      dsimp only
      rw [g₁.inp_eq, hemp]
    have hm4input : m₄.input = m.input ++ [v] := by
      rw [g₃.input_eq, hw]
      dsimp only
      rw [g₁.input_eq]
    have hm4ptr : m₄.pointer = m.pointer := by
      rw [g₃.pointer_eq, hw]
      dsimp only
      exact g₁.pointer_eq
    have hm4rel : m₄.relative_base = m.relative_base := by
      rw [g₃.rel_eq, hw]
      dsimp only
      exact g₁.rel_eq
    have hsome : m₄.input[m₄.input_pointer]? = some v := by
      rw [hm4input, hm4inp]
      simp
    have hsetp : m₄.set_at_parameter p v = m₄.set a v :=
      setp_eq_of_writeAddr m₄ p v a (by rw [hm4rel]; exact haddr)
    have hstep3 : (({ m₁ with state := .Blocked, instruction_counter := m₁.instruction_counter + 1 } : Machine).write v).step
        = (.ok (), { (m₄.set a v).2 with
            input_pointer := (m₄.set a v).2.input_pointer + 1,
            pointer := (m₄.set a v).2.pointer + 1 + 1,
            instruction_counter := (m₄.set a v).2.instruction_counter + 1 }) := by
      unfold Machine.step
      rw [hri3]
      dsimp only
      unfold Machine.execute_instruction
      rw [if_neg (by rw [h4state]; exact fun hc => hc rfl)]
      unfold Machine.execute_core
      dsimp only
      rw [hsome]
      dsimp only
      rw [show [p].getD 0 default_param = p from rfl, hsetp, set_eq]
      rfl
    refine ⟨_, hstep3, ?_, ?_, ?_, ?_⟩
    · show (m₄.set a v).2.memVal a = v
      exact set_memVal_same m₄ a v
    · show (m₄.set a v).2.input_pointer + 1 = m.input_pointer + 1
      rw [(set_fields m₄ a v).2.2.2.1, hm4inp, hemp]
    · show (m₄.set a v).2.state = .Running
      rw [(set_fields m₄ a v).2.1, h4state]
    · show (m₄.set a v).2.pointer + 1 + 1 = m.pointer + 2
      rw [(set_fields m₄ a v).1, hm4ptr]

/-- C3 witness: the instantiated statement for the program `3,3,99,0`,
whose first instruction is `Input` writing to address 3 with an empty
input queue. -/
theorem C3_witness :
    ∃ m₂ : Machine, (Machine.from_slots [3, 3, 99, 0]).step = (.ok (), m₂) ∧
      m₂.state = .Blocked ∧
      m₂.pointer = (Machine.from_slots [3, 3, 99, 0]).pointer ∧
      (∀ f : Nat, 1 ≤ f → Machine.run f (Machine.from_slots [3, 3, 99, 0]) = some (.ok (), m₂)) ∧
      ∀ v : Int,
        (m₂.write v).state = .Running ∧
        (m₂.write v).input = (Machine.from_slots [3, 3, 99, 0]).input ++ [v] ∧
        (m₂.write v).read_instruction.1 = .ok ⟨.Input, [⟨3, .Positional⟩]⟩ ∧
        ∃ m₆ : Machine, (m₂.write v).step = (.ok (), m₆) ∧
          m₆.memVal 3 = v ∧
          m₆.input_pointer = (Machine.from_slots [3, 3, 99, 0]).input_pointer + 1 ∧
          m₆.state = .Running ∧ m₆.pointer = (Machine.from_slots [3, 3, 99, 0]).pointer + 2 :=
  C3_input_blocks_then_retries (Machine.from_slots [3, 3, 99, 0]) ⟨3, .Positional⟩ 3
    (by decide) (by decide) (by decide) (by decide)
